import Mathlib

/-!
Verification of the kubernetes-mcp authorization substrate.

This file shallowly embeds the parts of the repository that the checked
properties talk about:

* `Authorization` — the policy evaluator (`internal/authorization/evaluator.go`):
  CEL predicate results, allow/deny fragment folding, the effective-permission
  accumulator and the final decision.
* `Kubernetes` — the multi-context client manager
  (`internal/kubernetes/client.go`): construction, context switching, credential
  reload and namespace gating.  External effects (building a Kubernetes client
  from credentials, reading a directory, parsing a kubeconfig) are parameters.
* `K8sTools` — the tool dispatcher helpers (`internal/k8stools/helpers.go`) and
  the `exec_command` handler.
* `YQUtil` — the structural filter pipeline (`internal/yqutil/evaluator.go`),
  with the single-expression engine as a parameter (it is an external pure
  function per the design).
-/

namespace Authorization

/-- `ResourceInfo` from `internal/authorization/evaluator.go`:
the `(group, version, kind, name)` descriptor of the accessed resource. -/
structure ResourceInfo where
  group : String
  version : String
  kind : String
  name : String
deriving Repr, DecidableEq

/-- `api.ResourceRule`: five optional token lists; an empty list constrains
nothing.  Field names follow their uses in `matchesResourceRule`. -/
structure ResourceRule where
  groups : List String
  versions : List String
  kinds : List String
  namespaces : List String
  names : List String
deriving Repr, DecidableEq

/-- `api.ToolContextRule`: one allow or deny fragment of a policy. -/
structure ToolContextRule where
  tools : List String
  contexts : List String
  resources : List ResourceRule
  labelPrefixes : List String
  annotationPrefixes : List String
deriving Repr, DecidableEq

/-- Outcome of evaluating a compiled CEL program on a request:
an evaluation error, a non-boolean value, or a boolean. -/
inductive CelResult where
  | evalError
  | nonBool
  | value (b : Bool)
deriving Repr, DecidableEq

/-- The authorization request (`AuthzRequest`).  The JWT payload is kept as an
association list; the evaluator only tests its emptiness and feeds it to the
compiled predicates. -/
structure AuthzRequest where
  payload : List (String × String)
  tool : String
  context : String
  nspace : String
  resource : ResourceInfo

/-- `CompiledPolicy`: a policy together with its compiled match program.  The
CEL program is modelled as a function from the request facts to a `CelResult`. -/
structure CompiledPolicy where
  name : String
  allow : Option ToolContextRule
  deny : Option ToolContextRule
  program : AuthzRequest → CelResult

/-- The `Evaluator`: the `allow_anonymous` flag and the compiled policy set. -/
structure Evaluator where
  allowAnonymous : Bool
  compiledPolicies : List CompiledPolicy

/-- `EffectivePermissions`: the accumulator folded over matching policies.
The Go `map[string]bool` entries are always set to `true`, so each map is a
finite set of keys, modelled as a list with membership semantics. -/
structure EffectivePermissions where
  allowedTools : List String
  allowedContexts : List String
  allowedResources : List ResourceRule
  deniedResources : List ResourceRule
  allowedLabelPrefixes : List String
  allowedAnnotationPrefixes : List String

/-- The empty accumulator `Evaluate` starts from. -/
def emptyPermissions : EffectivePermissions :=
  { allowedTools := [], allowedContexts := [], allowedResources := [],
    deniedResources := [], allowedLabelPrefixes := [], allowedAnnotationPrefixes := [] }

/-- Go map insertion of key `x` (value `true`). -/
def setInsert (s : List String) (x : String) : List String :=
  if s.contains x then s else x :: s

/-- The allow-side loops over token lists: `*` inserts the `*` key, any other
token inserts itself (`applyAllowRules`). -/
def applyTokens (s : List String) : List String → List String
  | [] => s
  | t :: rest => applyTokens (if t == "*" then setInsert s "*" else setInsert s t) rest

/-- The deny-side loops over token lists (`applyDenyRules`): `*` replaces the
whole set by the sentinel `_denied_*`; any other token is deleted. -/
def denyTokens (s : List String) : List String → List String
  | [] => s
  | t :: rest =>
    denyTokens (if t == "*" then ["_denied_*"] else s.filter (fun x => x != t)) rest

/-- `applyAllowRules` from `evaluator.go`. -/
def applyAllowRules (rule : ToolContextRule) (perms : EffectivePermissions) :
    EffectivePermissions :=
  { perms with
    allowedTools := applyTokens perms.allowedTools rule.tools,
    allowedContexts := applyTokens perms.allowedContexts rule.contexts,
    allowedResources := perms.allowedResources ++ rule.resources,
    allowedLabelPrefixes := applyTokens perms.allowedLabelPrefixes rule.labelPrefixes,
    allowedAnnotationPrefixes :=
      applyTokens perms.allowedAnnotationPrefixes rule.annotationPrefixes }

/-- `applyDenyRules` from `evaluator.go`. -/
def applyDenyRules (rule : ToolContextRule) (perms : EffectivePermissions) :
    EffectivePermissions :=
  { perms with
    deniedResources := perms.deniedResources ++ rule.resources,
    allowedTools := denyTokens perms.allowedTools rule.tools,
    allowedContexts := denyTokens perms.allowedContexts rule.contexts }

/-- `applyPolicyPermissions`: allow fragment first, then deny fragment. -/
def applyPolicyPermissions (p : CompiledPolicy) (perms : EffectivePermissions) :
    EffectivePermissions :=
  let permsA := match p.allow with
    | some r => applyAllowRules r perms
    | none => perms
  match p.deny with
  | some r => applyDenyRules r permsA
  | none => permsA

/-- `matchesList`: exact string equality or the `*` token. -/
def matchesList (list : List String) (value : String) : Bool :=
  list.any (fun item => item == "*" || item == value)

/-- Go `strings.Contains`. -/
def goContains (s sub : String) : Bool :=
  if sub == "" then true else (s.splitOn sub).length > 1

/-- `matchesWildcard`: `*`, exact, `p*`, `*s`, `p*s` and `*m*` shapes. -/
def matchesWildcard (pattern value : String) : Bool :=
  if pattern == "*" || pattern == value then true
  else if goContains pattern "*" then
    match pattern.splitOn "*" with
    | [pre, suf] =>
      if suf == "" then value.startsWith pre
      else if pre == "" then value.endsWith suf
      else value.startsWith pre && value.endsWith suf &&
        value.length ≥ pre.length + suf.length
    | [a, mid, c] => if a == "" && c == "" then goContains value mid else false
    | _ => false
  else false

/-- `matchesWildcardList`. -/
def matchesWildcardList (patterns : List String) (value : String) : Bool :=
  patterns.any (fun pattern => matchesWildcard pattern value)

/-- `matchesResourceRule`: every non-empty field list must match. -/
def matchesResourceRule (rule : ResourceRule) (resource : ResourceInfo)
    (ns : String) : Bool :=
  if !rule.groups.isEmpty && !(matchesList rule.groups resource.group) then false
  else if !rule.versions.isEmpty && !(matchesList rule.versions resource.version) then false
  else if !rule.kinds.isEmpty && !(matchesList rule.kinds resource.kind) then false
  else if !rule.namespaces.isEmpty && !(matchesWildcardList rule.namespaces ns) then false
  else if !rule.names.isEmpty && !(matchesWildcardList rule.names resource.name) then false
  else true

/-- `matchesResourceRules`: rule-wise disjunction. -/
def matchesResourceRules (rules : List ResourceRule) (resource : ResourceInfo)
    (ns : String) : Bool :=
  rules.any (fun rule => matchesResourceRule rule resource ns)

/-- `isResourceAllowed` from `evaluator.go`. -/
def isResourceAllowed (perms : EffectivePermissions) (resource : ResourceInfo)
    (ns : String) : Bool :=
  if perms.allowedResources.isEmpty && perms.deniedResources.isEmpty then true
  else if !perms.deniedResources.isEmpty &&
      matchesResourceRules perms.deniedResources resource ns then false
  else if perms.allowedResources.isEmpty then true
  else matchesResourceRules perms.allowedResources resource ns

/-- `isRequestAllowed` from `evaluator.go`. -/
def isRequestAllowed (perms : EffectivePermissions) (req : AuthzRequest) : Bool :=
  if perms.allowedTools.contains "_denied_*" ||
      perms.allowedContexts.contains "_denied_*" then false
  else if !(perms.allowedTools.contains "*") &&
      !(perms.allowedTools.contains req.tool) then false
  else if !(perms.allowedContexts.contains "*") &&
      !(perms.allowedContexts.contains req.context) then false
  else if !(isResourceAllowed perms req.resource req.nspace) then false
  else true

/-- `ToolVirtualResources`: the fixed tool → virtual descriptor table. -/
def toolVirtualResources : List (String × ResourceInfo) :=
  [("list_api_resources", ⟨"_", "", "APIDiscovery", ""⟩),
   ("list_api_versions", ⟨"_", "", "APIDiscovery", ""⟩),
   ("get_cluster_info", ⟨"_", "", "ClusterInfo", ""⟩),
   ("get_current_context", ⟨"_", "", "Context", ""⟩),
   ("list_contexts", ⟨"_", "", "Context", ""⟩),
   ("switch_context", ⟨"_", "", "Context", ""⟩)]

/-- `GetResourceForTool`: substitute the virtual descriptor only when the
caller supplied no kind. -/
def getResourceForTool (tool : String) (resource : ResourceInfo) : ResourceInfo :=
  if resource.kind == "" then
    match toolVirtualResources.lookup tool with
    | some v => v
    | none => resource
  else resource

/-- The request as `Evaluate` sees it after virtual-resource substitution. -/
def substRequest (req : AuthzRequest) : AuthzRequest :=
  { req with resource := getResourceForTool req.tool req.resource }

/-- The matching loop of `Evaluate`: policies whose program errors, returns a
non-boolean, or returns `false` are skipped; matching policies are folded. -/
def evalFold (req : AuthzRequest) (perms : EffectivePermissions) :
    List CompiledPolicy → EffectivePermissions
  | [] => perms
  | cp :: rest =>
    match cp.program req with
    | .value true => evalFold req (applyPolicyPermissions cp perms) rest
    | _ => evalFold req perms rest

/-- `Evaluate` from `evaluator.go` (the error return is always `nil`). -/
def Evaluate (e : Evaluator) (req : AuthzRequest) : Bool :=
  if req.payload.isEmpty && !e.allowAnonymous then false
  else
    let req2 := substRequest req
    isRequestAllowed (evalFold req2 emptyPermissions e.compiledPolicies) req2

end Authorization

namespace Kubernetes

/-- A constructed client bundle (`Client` in `internal/kubernetes/client.go`).
Only its identity matters to the checked properties; the REST host tokens it. -/
structure Client where
  host : String
deriving Repr, DecidableEq

/-- `api.KubernetesContextConfig` as used by `client.go` (name, credential
source, optional sub-context, namespace allow/deny lists). -/
structure KubernetesContextConfig where
  name : String
  kubeconfig : String
  kubeconfigContext : String
  description : String
  allowedNamespaces : List String
  deniedNamespaces : List String
deriving Repr, DecidableEq

/-- `api.KubernetesConfig` as used by `client.go`. -/
structure KubernetesConfig where
  defaultContext : String
  contexts : List KubernetesContextConfig
  contextsDir : String

/-- One entry returned by reading the contexts directory. -/
structure FileEntry where
  name : String
  isDir : Bool
deriving Repr, DecidableEq

/-- The external effects `client.go` performs, as parameters: building a
client bundle from credentials, listing the contexts directory (`none` is a
read error), and extracting a kubeconfig's `current-context` (`none` is a
load error). -/
structure Env where
  createClient : String → KubernetesContextConfig → Option Client
  readDir : String → Option (List FileEntry)
  loadCurrentContext : String → Option String

/-- Go map assignment `m[k] = v`: replace the binding if present, else add. -/
def insertPair {α : Type} (l : List (String × α)) (k : String) (v : α) :
    List (String × α) :=
  if (List.lookup k l).isSome then
    l.map (fun p => if p.1 == k then (k, v) else p)
  else l ++ [(k, v)]

/-- The `ClientManager` state: registered context configs, live client
bundles, the active context, and the credential-file tracking map. -/
structure ClientManager where
  contextsByName : List (String × KubernetesContextConfig)
  clients : List (String × Client)
  currentContext : String
  fileToContexts : List (String × List String)

/-- `trackFile`: append the context to the list registered for the path. -/
def trackFile (ftc : List (String × List String)) (path contextName : String) :
    List (String × List String) :=
  match List.lookup path ftc with
  | some names => insertPair ftc path (names ++ [contextName])
  | none => ftc ++ [(path, [contextName])]

/-- The explicit-contexts loop of `NewClientManager`: duplicate names and
client construction failures abort. -/
def loadExplicitContexts (env : Env) :
    List KubernetesContextConfig → ClientManager → Option ClientManager
  | [], cm => some cm
  | c :: rest, cm =>
    if (List.lookup c.name cm.contextsByName).isSome then none
    else
      match env.createClient c.name c with
      | none => none
      | some client =>
        loadExplicitContexts env rest
          { cm with
            clients := insertPair cm.clients c.name client,
            contextsByName := insertPair cm.contextsByName c.name c,
            fileToContexts :=
              if c.kubeconfig != "" then trackFile cm.fileToContexts c.kubeconfig c.name
              else cm.fileToContexts }

/-- The directory loop of `loadContextsFromDir`: skip directories and files
without a YAML extension; a load failure, a missing `current-context`, or a
name collision aborts. -/
def loadDirEntries (env : Env) (dir : String) :
    List FileEntry → ClientManager → Option ClientManager
  | [], cm => some cm
  | entry :: rest, cm =>
    if entry.isDir then loadDirEntries env dir rest cm
    else if !entry.name.endsWith ".yaml" && !entry.name.endsWith ".yml" then
      loadDirEntries env dir rest cm
    else
      let path := dir ++ "/" ++ entry.name
      match env.loadCurrentContext path with
      | none => none
      | some contextName =>
        if contextName == "" then none
        else if (List.lookup contextName cm.contextsByName).isSome then none
        else
          let cfg : KubernetesContextConfig :=
            { name := contextName, kubeconfig := path, kubeconfigContext := "",
              description := "", allowedNamespaces := [], deniedNamespaces := [] }
          match env.createClient contextName cfg with
          | none => none
          | some client =>
            loadDirEntries env dir rest
              { cm with
                clients := insertPair cm.clients contextName client,
                contextsByName := insertPair cm.contextsByName contextName cfg,
                fileToContexts := trackFile cm.fileToContexts path contextName }

/-- `NewClientManager`: the active context starts as `config.defaultContext`
(unvalidated), explicit entries load first, then the contexts directory. -/
def NewClientManager (env : Env) (config : KubernetesConfig) :
    Option ClientManager :=
  let cm0 : ClientManager :=
    { contextsByName := [], clients := [], currentContext := config.defaultContext,
      fileToContexts := [] }
  match loadExplicitContexts env config.contexts cm0 with
  | none => none
  | some cm1 =>
    if config.contextsDir != "" then
      match env.readDir config.contextsDir with
      | none => none
      | some entries => loadDirEntries env config.contextsDir entries cm1
    else some cm1

/-- `GetClient`: empty argument defaults to the active context. -/
def GetClient (cm : ClientManager) (context : String) : Option Client :=
  let key := if context == "" then cm.currentContext else context
  List.lookup key cm.clients

/-- `GetCurrentContext`. -/
def GetCurrentContext (cm : ClientManager) : String :=
  cm.currentContext

/-- `SetCurrentContext`: succeeds (second component `true`) only when the
name has a registered client; on failure the state is unchanged. -/
def SetCurrentContext (cm : ClientManager) (context : String) :
    ClientManager × Bool :=
  if (List.lookup context cm.clients).isSome then
    ({ cm with currentContext := context }, true)
  else (cm, false)

/-- One iteration of `reloadContextsForFile`: rebuild the bundle for a tracked
context; a failed rebuild leaves the old bundle in place. -/
def reloadOne (env : Env) (cm : ClientManager) (contextName : String) :
    ClientManager :=
  match List.lookup contextName cm.contextsByName with
  | none => cm
  | some ctxConfig =>
    match env.createClient contextName ctxConfig with
    | none => cm
    | some client => { cm with clients := insertPair cm.clients contextName client }

/-- `reloadContextsForFile`: rebuild every context bound to the fired path. -/
def reloadContextsForFile (env : Env) (cm : ClientManager) (filePath : String) :
    ClientManager :=
  match List.lookup filePath cm.fileToContexts with
  | none => cm
  | some names => names.foldl (reloadOne env) cm

/-- `GetContextConfig`: empty argument defaults to the active context. -/
def GetContextConfig (cm : ClientManager) (context : String) :
    Option KubernetesContextConfig :=
  let key := if context == "" then cm.currentContext else context
  List.lookup key cm.contextsByName

/-- The namespace decision of `IsNamespaceAllowed` on a context config:
denied list first, then the empty-allow-list rule, then the allow list. -/
def isNamespaceAllowedConfig (config : KubernetesContextConfig) (ns : String) :
    Bool :=
  if config.deniedNamespaces.any (fun denied => denied == ns) then false
  else if config.allowedNamespaces.isEmpty then true
  else config.allowedNamespaces.any (fun allowed => allowed == ns)

/-- `IsNamespaceAllowed`: an unknown context denies every namespace. -/
def IsNamespaceAllowed (cm : ClientManager) (context ns : String) : Bool :=
  match GetContextConfig cm context with
  | none => false
  | some config => isNamespaceAllowedConfig config ns

/-- The mutating operations a running process performs on the manager after
construction: context switches and debounced credential reloads. -/
inductive CMOp where
  | setContext (name : String)
  | reloadFile (path : String)

/-- Apply one operation to the manager state. -/
def applyOp (env : Env) (cm : ClientManager) : CMOp → ClientManager
  | .setContext name => (SetCurrentContext cm name).1
  | .reloadFile path => reloadContextsForFile env cm path

/-- Apply a sequence of operations. -/
def applyOps (env : Env) (cm : ClientManager) (ops : List CMOp) : ClientManager :=
  ops.foldl (applyOp env) cm

end Kubernetes

namespace K8sTools

/-- An MCP tool result (`mcp.CallToolResult`): one text block and the error
flag. -/
structure CallToolResult where
  text : String
  isError : Bool
deriving Repr, DecidableEq

/-- `successResult` from `internal/k8stools/helpers.go`. -/
def successResult (text : String) : CallToolResult :=
  { text := text, isError := false }

/-- `errorResult` from `internal/k8stools/helpers.go`. -/
def errorResult (msg : String) : CallToolResult :=
  { text := "Error: " ++ msg, isError := true }

/-- `checkAuthorization` from `internal/k8stools/helpers.go`: with no
evaluator configured it succeeds (`none` = Go `nil` error); otherwise it
delegates to `Evaluate` and turns a deny into an access-denied error. -/
def checkAuthorization (authz : Option Authorization.Evaluator)
    (payload : List (String × String)) (tool k8sContext ns : String)
    (resource : Authorization.ResourceInfo) : Option String :=
  match authz with
  | none => none
  | some e =>
    if Authorization.Evaluate e
        { payload := payload, tool := tool, context := k8sContext,
          nspace := ns, resource := resource } then none
    else some ("access denied: not authorized to use tool " ++ tool ++
      " on context " ++ k8sContext)

/-- A Go `context.Context`, reduced to its deadline (absolute time). -/
structure GoContext where
  deadline : Option Nat
deriving Repr, DecidableEq

/-- `context.WithTimeout(parent, d)` at time `now`: the child's deadline is
`now + d`, capped by the parent's earlier deadline if any. -/
def withTimeout (parent : GoContext) (now d : Nat) : GoContext :=
  { deadline := some (match parent.deadline with
      | some pd => min pd (now + d)
      | none => now + d) }

/-- The output assembly of `handleExecCommand`: stdout, then a demarcated
stderr section when stderr is non-empty. -/
def execCombinedOutput (stdout stderr : String) : String :=
  if stderr.length > 0 then stdout ++ "\n--- stderr ---\n" ++ stderr
  else stdout

/-- The streaming tail of `handleExecCommand` (`part_000`): compose the fixed
30-second timeout with the request context, run the remote stream (modelled as
a function from the exec context to `(stdout, stderr, optional error)`), and
wrap the outcome.  A stream error — including the child's non-zero exit —
still yields a success result whose payload describes the failure. -/
def handleExecStream (reqCtx : GoContext) (now : Nat)
    (streamExec : GoContext → String × String × Option String) : CallToolResult :=
  let execCtx := withTimeout reqCtx now 30
  match streamExec execCtx with
  | (stdout, stderr, some errMsg) =>
    successResult ("Command exited with error: " ++ errMsg ++ "\n\nOutput:\n" ++
      execCombinedOutput stdout stderr)
  | (stdout, stderr, none) => successResult (execCombinedOutput stdout stderr)

end K8sTools

namespace YQUtil

/-- The cascade loop of `Evaluate` in `internal/yqutil/evaluator.go`, with the
single-expression engine (`evaluateSingle`, an external pure function) as a
parameter.  A failing expression aborts with an error naming it. -/
def evalCascade (evalSingle : String → String → Except String String) :
    String → List String → Except String String
  | current, [] => .ok current
  | current, expr :: rest =>
    match evalSingle current expr with
    | .error e => .error ("failed to evaluate expression " ++ expr ++ ": " ++ e)
    | .ok result => evalCascade evalSingle result rest

/-- `Evaluate`: an empty expression list returns the input unchanged;
otherwise expressions apply left-to-right and the final output is
whitespace-trimmed. -/
def Evaluate (evalSingle : String → String → Except String String)
    (input : String) (expressions : List String) : Except String String :=
  if expressions.isEmpty then .ok input
  else
    match evalCascade evalSingle input expressions with
    | .error e => .error e
    | .ok current => .ok current.trim

end YQUtil

/-! ## Shared helper lemmas -/

theorem list_any_beq_iff_mem (l : List String) (v : String) :
    (l.any (fun x => x == v) = true) ↔ v ∈ l := by
  simp [List.any_eq_true]

theorem list_contains_iff_mem (l : List String) (a : String) :
    l.contains a = true ↔ a ∈ l := by
  simp

theorem string_length_pos_of_ne (s : String) (h : s ≠ "") : s.length > 0 := by
  cases s with
  | mk data =>
    cases data with
    | nil => exact absurd rfl h
    | cons c cs => simp [String.length]

/-! ## Evaluator helper lemmas -/

namespace Authorization

theorem evalFold_skip_all (req : AuthzRequest) (perms : EffectivePermissions)
    (l : List CompiledPolicy)
    (h : ∀ p ∈ l, p.program req ≠ CelResult.value true) :
    evalFold req perms l = perms := by
  induction l with
  | nil => rfl
  | cons cp rest ih =>
    have hcp := h cp (List.mem_cons_self _ _)
    have hrest : ∀ p ∈ rest, p.program req ≠ CelResult.value true :=
      fun p hp => h p (List.mem_cons_of_mem _ hp)
    cases hp : cp.program req with
    | value b =>
      cases b with
      | true => exact absurd hp hcp
      | false => simp only [evalFold, hp]; exact ih hrest
    | evalError => simp only [evalFold, hp]; exact ih hrest
    | nonBool => simp only [evalFold, hp]; exact ih hrest

theorem evalFold_append (req : AuthzRequest) (perms : EffectivePermissions)
    (l₁ l₂ : List CompiledPolicy) :
    evalFold req perms (l₁ ++ l₂) = evalFold req (evalFold req perms l₁) l₂ := by
  induction l₁ generalizing perms with
  | nil => rfl
  | cons cp rest ih =>
    simp only [List.cons_append, evalFold]
    cases hp : cp.program req with
    | value b => cases b <;> exact ih _
    | evalError => exact ih _
    | nonBool => exact ih _

theorem isRequestAllowed_empty (req : AuthzRequest) :
    isRequestAllowed emptyPermissions req = false := rfl

end Authorization

/-! ## C2 — deny by default -/

namespace Authorization

/-- C2: when no compiled predicate evaluates (without error) to the boolean
`true`, `Evaluate` returns deny; and with empty accumulated permissions the
decision is deny for every request. -/
theorem c2_deny_by_default :
    (∀ (e : Evaluator) (req : AuthzRequest),
      (∀ p ∈ e.compiledPolicies,
        p.program (substRequest req) ≠ CelResult.value true) →
      Evaluate e req = false)
    ∧ (∀ req : AuthzRequest, isRequestAllowed emptyPermissions req = false) := by
  constructor
  · intro e req h
    cases e with
    | mk anon cps =>
      by_cases hanon : (req.payload.isEmpty && !anon) = true
      · simp [Evaluate, hanon]
      · simp only [Evaluate, hanon, if_false, Bool.false_eq_true]
        rw [evalFold_skip_all _ _ _ h]
        exact isRequestAllowed_empty _
  · exact isRequestAllowed_empty

/-- Witness for C2: a single policy whose predicate errors at evaluation. -/
theorem c2_witness :
    Evaluate
      ⟨true, [⟨"broken", none, none, fun _ => CelResult.evalError⟩]⟩
      ⟨[("sub", "alice")], "get_resource", "dev", "default",
        ⟨"", "v1", "Pod", "p"⟩⟩ = false :=
  c2_deny_by_default.1 _ _ (by
    intro p hp
    rw [List.mem_singleton] at hp
    subst hp
    decide)

end Authorization

/-! ## C7 — predicate isolation -/

namespace Authorization

/-- C7: a policy whose predicate raises an evaluation error or yields a
non-boolean is skipped, and the decision equals the decision over the same
policy set with that policy removed. -/
theorem c7_predicate_isolation (e : Evaluator) (req : AuthzRequest)
    (l₁ l₂ : List CompiledPolicy) (p : CompiledPolicy)
    (hsplit : e.compiledPolicies = l₁ ++ p :: l₂)
    (herr : p.program (substRequest req) = CelResult.evalError ∨
      p.program (substRequest req) = CelResult.nonBool) :
    Evaluate e req = Evaluate { e with compiledPolicies := l₁ ++ l₂ } req := by
  cases e with
  | mk anon cps =>
    simp only at hsplit
    subst hsplit
    by_cases hanon : (req.payload.isEmpty && !anon) = true
    · simp [Evaluate, hanon]
    · simp only [Evaluate, hanon, if_false, Bool.false_eq_true]
      rw [evalFold_append, evalFold_append]
      rcases herr with h | h <;> simp only [evalFold, h]

/-- Witness for C7: a broken predicate alongside an allowing policy; the
decision equals the decision without the broken policy. -/
theorem c7_witness :
    Evaluate
      ⟨true,
        [⟨"broken", none, none, fun _ => CelResult.evalError⟩,
         ⟨"allow-get", some ⟨["get_resource"], ["*"], [], [], []⟩, none,
           fun _ => CelResult.value true⟩]⟩
      ⟨[("sub", "alice")], "get_resource", "dev", "default",
        ⟨"", "v1", "Pod", "p"⟩⟩
    = Evaluate
      ⟨true,
        [⟨"allow-get", some ⟨["get_resource"], ["*"], [], [], []⟩, none,
          fun _ => CelResult.value true⟩]⟩
      ⟨[("sub", "alice")], "get_resource", "dev", "default",
        ⟨"", "v1", "Pod", "p"⟩⟩ :=
  c7_predicate_isolation _ _ []
    [⟨"allow-get", some ⟨["get_resource"], ["*"], [], [], []⟩, none,
      fun _ => CelResult.value true⟩]
    ⟨"broken", none, none, fun _ => CelResult.evalError⟩ rfl (Or.inl rfl)

end Authorization

/-! ## C4 — deny wins on resources -/

namespace Authorization

theorem mem_denied_applyPolicy (cp : CompiledPolicy)
    (perms : EffectivePermissions) (r : ResourceRule)
    (h : r ∈ perms.deniedResources) :
    r ∈ (applyPolicyPermissions cp perms).deniedResources := by
  unfold applyPolicyPermissions
  cases cp.allow <;> cases cp.deny <;>
    simp_all [applyAllowRules, applyDenyRules, List.mem_append]

theorem mem_denied_applyPolicy_self (cp : CompiledPolicy)
    (perms : EffectivePermissions) (d : ToolContextRule) (r : ResourceRule)
    (hd : cp.deny = some d) (hr : r ∈ d.resources) :
    r ∈ (applyPolicyPermissions cp perms).deniedResources := by
  unfold applyPolicyPermissions
  rw [hd]
  cases cp.allow <;>
    simp [applyAllowRules, applyDenyRules, List.mem_append, hr]

theorem mem_denied_evalFold (req : AuthzRequest) (perms : EffectivePermissions)
    (l : List CompiledPolicy) (r : ResourceRule)
    (h : r ∈ perms.deniedResources) :
    r ∈ (evalFold req perms l).deniedResources := by
  induction l generalizing perms with
  | nil => exact h
  | cons cp rest ih =>
    cases hp : cp.program req with
    | value b =>
      cases b with
      | true =>
        simp only [evalFold, hp]
        exact ih _ (mem_denied_applyPolicy cp perms r h)
      | false => simp only [evalFold, hp]; exact ih _ h
    | evalError => simp only [evalFold, hp]; exact ih _ h
    | nonBool => simp only [evalFold, hp]; exact ih _ h

theorem isResourceAllowed_false_of_denied (perms : EffectivePermissions)
    (res : ResourceInfo) (ns : String) (r : ResourceRule)
    (hmem : r ∈ perms.deniedResources)
    (hmatch : matchesResourceRule r res ns = true) :
    isResourceAllowed perms res ns = false := by
  have hne : perms.deniedResources.isEmpty = false := by
    cases hl : perms.deniedResources with
    | nil => rw [hl] at hmem; cases hmem
    | cons a l => rfl
  have hany : matchesResourceRules perms.deniedResources res ns = true := by
    unfold matchesResourceRules
    exact List.any_eq_true.mpr ⟨r, hmem, hmatch⟩
  simp [isResourceAllowed, hne, hany]

theorem isRequestAllowed_false_of_resource (perms : EffectivePermissions)
    (req : AuthzRequest)
    (h : isResourceAllowed perms req.resource req.nspace = false) :
    isRequestAllowed perms req = false := by
  simp [isRequestAllowed, h]

/-- C4: any matching policy contributing a deny resource rule that matches
the (post-substitution) descriptor and namespace forces a deny, regardless
of allow resource rules from the same or other matching policies. -/
theorem c4_deny_wins_resources (e : Evaluator) (req : AuthzRequest)
    (p : CompiledPolicy) (d : ToolContextRule) (r : ResourceRule)
    (hp : p ∈ e.compiledPolicies)
    (hmatch : p.program (substRequest req) = CelResult.value true)
    (hd : p.deny = some d) (hr : r ∈ d.resources)
    (hres : matchesResourceRule r (substRequest req).resource
      (substRequest req).nspace = true) :
    Evaluate e req = false := by
  obtain ⟨l₁, l₂, hsplit⟩ := List.append_of_mem hp
  cases e with
  | mk anon cps =>
    simp only at hsplit
    subst hsplit
    by_cases hanon : (req.payload.isEmpty && !anon) = true
    · simp [Evaluate, hanon]
    · simp only [Evaluate, hanon, if_false, Bool.false_eq_true]
      apply isRequestAllowed_false_of_resource
      refine isResourceAllowed_false_of_denied _ _ _ r ?_ hres
      rw [evalFold_append]
      have hstep :
          evalFold (substRequest req)
              (evalFold (substRequest req) emptyPermissions l₁) (p :: l₂) =
            evalFold (substRequest req)
              (applyPolicyPermissions p
                (evalFold (substRequest req) emptyPermissions l₁)) l₂ := by
        simp only [evalFold, hmatch]
      rw [hstep]
      exact mem_denied_evalFold _ _ _ _
        (mem_denied_applyPolicy_self _ _ _ _ hd hr)

/-- Witness for C4: a policy that allows everything but denies core-group
Secrets; a request for a Secret is denied. -/
theorem c4_witness :
    Evaluate
      ⟨true, [⟨"deny-secrets",
        some ⟨["*"], ["*"], [⟨["*"], [], ["*"], [], []⟩], [], []⟩,
        some ⟨[], [], [⟨[""], [], ["Secret"], [], []⟩], [], []⟩,
        fun _ => CelResult.value true⟩]⟩
      ⟨[("sub", "alice")], "get_resource", "dev", "default",
        ⟨"", "v1", "Secret", "db"⟩⟩ = false :=
  c4_deny_wins_resources _ _
    ⟨"deny-secrets",
      some ⟨["*"], ["*"], [⟨["*"], [], ["*"], [], []⟩], [], []⟩,
      some ⟨[], [], [⟨[""], [], ["Secret"], [], []⟩], [], []⟩,
      fun _ => CelResult.value true⟩
    ⟨[], [], [⟨[""], [], ["Secret"], [], []⟩], [], []⟩
    ⟨[""], [], ["Secret"], [], []⟩
    (List.mem_singleton.mpr rfl) rfl rfl (List.mem_singleton.mpr rfl)
    (by decide)

end Authorization

/-! ## C6 — resource-rule field matching -/

namespace Authorization

theorem matchesList_iff (l : List String) (v : String) (hne : l ≠ []) :
    matchesList l v = true ↔ "*" ∈ l ∨ v ∈ l := by
  unfold matchesList
  rw [List.any_eq_true]
  constructor
  · rintro ⟨x, hx, hp⟩
    have hp' : x = "*" ∨ x = v := by simpa using hp
    rcases hp' with rfl | rfl
    · exact Or.inl hx
    · exact Or.inr hx
  · rintro (h | h)
    · exact ⟨"*", h, by simp⟩
    · exact ⟨v, h, by simp⟩

theorem guard_chain (e m r : Bool) :
    (if !e && !m then false else r) = true ↔
      (e = true ∨ m = true) ∧ r = true := by
  cases e <;> cases m <;> cases r <;> decide

theorem matchesResourceRule_iff (rule : ResourceRule) (res : ResourceInfo)
    (ns : String) :
    matchesResourceRule rule res ns = true ↔
      (rule.groups = [] ∨ matchesList rule.groups res.group = true)
      ∧ (rule.versions = [] ∨ matchesList rule.versions res.version = true)
      ∧ (rule.kinds = [] ∨ matchesList rule.kinds res.kind = true)
      ∧ (rule.namespaces = [] ∨
          matchesWildcardList rule.namespaces ns = true)
      ∧ (rule.names = [] ∨
          matchesWildcardList rule.names res.name = true) := by
  unfold matchesResourceRule
  rw [guard_chain, guard_chain, guard_chain, guard_chain, guard_chain]
  simp [List.isEmpty_iff]

/-- C6: an empty token list matches any value; a non-empty list matches only
by exact equality or the `*` token; a rule matches only when every non-empty
field matches.  In particular a deny rule with `versions ["v1"]` does not
match an empty version, while `["*"]` or an omitted list does. -/
theorem c6_field_matching :
    (∀ (l : List String) (v : String), l ≠ [] →
      (matchesList l v = true ↔ "*" ∈ l ∨ v ∈ l))
    ∧ (∀ (rule : ResourceRule) (res : ResourceInfo) (ns : String),
        matchesResourceRule rule res ns = true ↔
          (rule.groups = [] ∨ matchesList rule.groups res.group = true)
          ∧ (rule.versions = [] ∨ matchesList rule.versions res.version = true)
          ∧ (rule.kinds = [] ∨ matchesList rule.kinds res.kind = true)
          ∧ (rule.namespaces = [] ∨
              matchesWildcardList rule.namespaces ns = true)
          ∧ (rule.names = [] ∨
              matchesWildcardList rule.names res.name = true))
    ∧ matchesResourceRule ⟨[""], ["v1"], ["Secret"], [], []⟩
        ⟨"", "", "Secret", "db"⟩ "default" = false
    ∧ matchesResourceRule ⟨[""], ["*"], ["Secret"], [], []⟩
        ⟨"", "", "Secret", "db"⟩ "default" = true
    ∧ matchesResourceRule ⟨[""], [], ["Secret"], [], []⟩
        ⟨"", "", "Secret", "db"⟩ "default" = true :=
  ⟨matchesList_iff, matchesResourceRule_iff, by decide, by decide, by decide⟩

/-- Witness for C6 at a concrete non-empty token list. -/
theorem c6_witness : matchesList ["v1"] "v1" = true :=
  (c6_field_matching.1 ["v1"] "v1" (by decide)).mpr (Or.inr (by decide))

end Authorization

/-! ## C1 — wildcard tool deny -/

namespace Authorization

theorem mem_setInsert (s : List String) (y x : String) (h : x ∈ s) :
    x ∈ setInsert s y := by
  unfold setInsert
  split
  · exact h
  · exact List.mem_cons_of_mem _ h

theorem mem_applyTokens (s ts : List String) (x : String) (h : x ∈ s) :
    x ∈ applyTokens s ts := by
  induction ts generalizing s with
  | nil => exact h
  | cons t rest ih =>
    simp only [applyTokens]
    exact ih _ (by split <;> exact mem_setInsert _ _ _ h)

theorem sentinel_mem_denyTokens (s ts : List String)
    (hmem : "_denied_*" ∈ s) (hni : "_denied_*" ∉ ts) :
    "_denied_*" ∈ denyTokens s ts := by
  induction ts generalizing s with
  | nil => exact hmem
  | cons t rest ih =>
    simp only [denyTokens]
    refine ih _ ?_ (fun hh => hni (List.mem_cons_of_mem _ hh))
    by_cases hb : (t == "*") = true
    · simp [hb]
    · rw [if_neg (by simp [hb])]
      refine List.mem_filter.mpr ⟨hmem, ?_⟩
      have ht : t ≠ "_denied_*" :=
        fun hh => hni (hh ▸ List.mem_cons_self _ _)
      simp [bne_iff_ne]
      exact Ne.symm ht

theorem sentinel_mem_denyTokens_of_star (s ts : List String)
    (hstar : "*" ∈ ts) (hni : "_denied_*" ∉ ts) :
    "_denied_*" ∈ denyTokens s ts := by
  induction ts generalizing s with
  | nil => cases hstar
  | cons t rest ih =>
    simp only [denyTokens]
    by_cases hb : (t == "*") = true
    · rw [if_pos hb]
      exact sentinel_mem_denyTokens _ _ (List.mem_singleton.mpr rfl)
        (fun hh => hni (List.mem_cons_of_mem _ hh))
    · rw [if_neg (by simp [hb])]
      have hstar' : "*" ∈ rest := by
        cases hstar with
        | head => exact absurd (by simp) hb
        | tail _ hh => exact hh
      exact ih _ hstar' (fun hh => hni (List.mem_cons_of_mem _ hh))

theorem sentinel_preserved_applyPolicy (cp : CompiledPolicy)
    (perms : EffectivePermissions)
    (hmem : "_denied_*" ∈ perms.allowedTools)
    (hq : ∀ d', cp.deny = some d' → "_denied_*" ∉ d'.tools) :
    "_denied_*" ∈ (applyPolicyPermissions cp perms).allowedTools := by
  unfold applyPolicyPermissions
  have hA : "_denied_*" ∈
      (match cp.allow with
        | some r => applyAllowRules r perms
        | none => perms).allowedTools := by
    cases cp.allow with
    | none => exact hmem
    | some r =>
      simp only [applyAllowRules]
      exact mem_applyTokens _ _ _ hmem
  cases hd : cp.deny with
  | none => exact hA
  | some dr =>
    simp only [applyDenyRules]
    exact sentinel_mem_denyTokens _ _ hA (hq dr hd)

theorem sentinel_established_applyPolicy (cp : CompiledPolicy)
    (perms : EffectivePermissions) (d : ToolContextRule)
    (hd : cp.deny = some d) (hstar : "*" ∈ d.tools)
    (hni : "_denied_*" ∉ d.tools) :
    "_denied_*" ∈ (applyPolicyPermissions cp perms).allowedTools := by
  unfold applyPolicyPermissions
  rw [hd]
  simp only [applyDenyRules]
  exact sentinel_mem_denyTokens_of_star _ _ hstar hni

theorem sentinel_preserved_evalFold (req : AuthzRequest)
    (perms : EffectivePermissions) (l : List CompiledPolicy)
    (hmem : "_denied_*" ∈ perms.allowedTools)
    (hq : ∀ q ∈ l, ∀ d', q.deny = some d' → "_denied_*" ∉ d'.tools) :
    "_denied_*" ∈ (evalFold req perms l).allowedTools := by
  induction l generalizing perms with
  | nil => exact hmem
  | cons cp rest ih =>
    have hrest : ∀ q ∈ rest, ∀ d', q.deny = some d' → "_denied_*" ∉ d'.tools :=
      fun q hqq => hq q (List.mem_cons_of_mem _ hqq)
    cases hp : cp.program req with
    | value b =>
      cases b with
      | true =>
        simp only [evalFold, hp]
        exact ih _ (sentinel_preserved_applyPolicy cp perms hmem
          (hq cp (List.mem_cons_self _ _))) hrest
      | false => simp only [evalFold, hp]; exact ih _ hmem hrest
    | evalError => simp only [evalFold, hp]; exact ih _ hmem hrest
    | nonBool => simp only [evalFold, hp]; exact ih _ hmem hrest

theorem isRequestAllowed_false_of_sentinel (perms : EffectivePermissions)
    (req : AuthzRequest) (h : "_denied_*" ∈ perms.allowedTools) :
    isRequestAllowed perms req = false := by
  simp [isRequestAllowed, h]

/-- Counterexample to C1 as stated: one matching policy denies tools `*`,
another matching policy independently allows the requested tool and context
and contributes no resource rules — taken alone, the allowing policy admits
the request — yet the combined decision is still deny: the wildcard tool
deny acts globally, not per-policy. -/
theorem c1_counterexample :
    Evaluate
      ⟨true,
        [⟨"deny-everything", none, some ⟨["*"], [], [], [], []⟩,
           fun _ => CelResult.value true⟩,
         ⟨"allow-get", some ⟨["get_resource"], ["*"], [], [], []⟩, none,
           fun _ => CelResult.value true⟩]⟩
      ⟨[("sub", "alice")], "get_resource", "dev", "default",
        ⟨"", "v1", "Pod", "p"⟩⟩ = false
    ∧ Evaluate
      ⟨true,
        [⟨"allow-get", some ⟨["get_resource"], ["*"], [], [], []⟩, none,
          fun _ => CelResult.value true⟩]⟩
      ⟨[("sub", "alice")], "get_resource", "dev", "default",
        ⟨"", "v1", "Pod", "p"⟩⟩ = true :=
  ⟨rfl, rfl⟩

/-- C1 amended: once any matching policy's deny fragment contains the tool
token `*`, the decision is deny regardless of every other matching policy's
allow contribution (assuming no policy uses the reserved internal token
`_denied_*` in a deny fragment): the wildcard tool deny is global across
the merged accumulator, not local to the contributing policy. -/
theorem c1_amended_wildcard_deny_global (e : Evaluator) (req : AuthzRequest)
    (p : CompiledPolicy) (d : ToolContextRule)
    (hp : p ∈ e.compiledPolicies)
    (hmatch : p.program (substRequest req) = CelResult.value true)
    (hd : p.deny = some d) (hstar : "*" ∈ d.tools)
    (hsent : ∀ q ∈ e.compiledPolicies, ∀ d', q.deny = some d' →
      "_denied_*" ∉ d'.tools) :
    Evaluate e req = false := by
  obtain ⟨l₁, l₂, hsplit⟩ := List.append_of_mem hp
  cases e with
  | mk anon cps =>
    simp only at hsplit
    subst hsplit
    by_cases hanon : (req.payload.isEmpty && !anon) = true
    · simp [Evaluate, hanon]
    · simp only [Evaluate, hanon, if_false, Bool.false_eq_true]
      apply isRequestAllowed_false_of_sentinel
      rw [evalFold_append]
      have hstep :
          evalFold (substRequest req)
              (evalFold (substRequest req) emptyPermissions l₁) (p :: l₂) =
            evalFold (substRequest req)
              (applyPolicyPermissions p
                (evalFold (substRequest req) emptyPermissions l₁)) l₂ := by
        simp only [evalFold, hmatch]
      rw [hstep]
      refine sentinel_preserved_evalFold _ _ _ ?_ ?_
      · exact sentinel_established_applyPolicy _ _ _ hd hstar
          (hsent p (by simp) d hd)
      · intro q hqq
        exact hsent q (by simp [hqq])

/-- Witness for the amended C1: the counterexample's policy pair, denied. -/
theorem c1_amended_witness :
    Evaluate
      ⟨true,
        [⟨"deny-everything", none, some ⟨["*"], [], [], [], []⟩,
           fun _ => CelResult.value true⟩,
         ⟨"allow-get", some ⟨["get_resource"], ["*"], [], [], []⟩, none,
           fun _ => CelResult.value true⟩]⟩
      ⟨[("sub", "bob")], "get_resource", "dev", "default",
        ⟨"", "v1", "Pod", "p"⟩⟩ = false :=
  c1_amended_wildcard_deny_global _ _
    ⟨"deny-everything", none, some ⟨["*"], [], [], [], []⟩,
      fun _ => CelResult.value true⟩
    ⟨["*"], [], [], [], []⟩
    (by simp) rfl rfl (by decide)
    (by
      intro q hqq d' hd'
      rcases List.mem_cons.mp hqq with rfl | hqq'
      · cases hd'; decide
      · rcases List.mem_singleton.mp hqq' with rfl
        cases hd')

end Authorization

/-! ## C5 — active-context membership invariant -/

namespace Kubernetes

theorem lookup_isSome_map_replace {α : Type} (l : List (String × α))
    (k k' : String) (v : α) (h : (List.lookup k l).isSome = true) :
    (List.lookup k
      (l.map (fun p => if p.1 == k' then (k', v) else p))).isSome = true := by
  induction l with
  | nil => simp [List.lookup] at h
  | cons p rest ih =>
    obtain ⟨a, b⟩ := p
    simp only [List.map_cons]
    by_cases ha : (a == k') = true
    · rw [if_pos ha]
      by_cases hkk : (k == k') = true
      · simp only [List.lookup, hkk, Option.isSome_some]
      · have hk : (k == a) = false := by
          cases h1 : (k == a) with
          | false => rfl
          | true =>
            exfalso
            apply hkk
            rw [beq_iff_eq] at h1 ha ⊢
            rw [h1, ha]
        have h' : (List.lookup k rest).isSome = true := by
          simpa only [List.lookup, hk] using h
        have hkk' : (k == k') = false := by
          cases h1 : (k == k') with
          | false => rfl
          | true => exact absurd h1 hkk
        simp only [List.lookup, hkk']
        exact ih h'
    · rw [if_neg ha]
      cases hk : (k == a) with
      | true => simp only [List.lookup, hk, Option.isSome_some]
      | false =>
        have h' : (List.lookup k rest).isSome = true := by
          simpa only [List.lookup, hk] using h
        simp only [List.lookup, hk]
        exact ih h'

theorem lookup_isSome_append {α : Type} (l : List (String × α))
    (x : String × α) (k : String) (h : (List.lookup k l).isSome = true) :
    (List.lookup k (l ++ [x])).isSome = true := by
  induction l with
  | nil => simp [List.lookup] at h
  | cons p rest ih =>
    obtain ⟨a, b⟩ := p
    simp only [List.cons_append]
    cases hk : (k == a) with
    | true => simp only [List.lookup, hk, Option.isSome_some]
    | false =>
      have h' : (List.lookup k rest).isSome = true := by
        simpa only [List.lookup, hk] using h
      simp only [List.lookup, hk]
      exact ih h'

theorem lookup_isSome_insertPair {α : Type} (l : List (String × α))
    (k k' : String) (v : α) (h : (List.lookup k l).isSome = true) :
    (List.lookup k (insertPair l k' v)).isSome = true := by
  unfold insertPair
  split
  · exact lookup_isSome_map_replace l k k' v h
  · exact lookup_isSome_append l (k', v) k h

theorem invariant_reloadOne (env : Env) (cm : ClientManager) (name : String)
    (h : (List.lookup cm.currentContext cm.clients).isSome = true) :
    (List.lookup (reloadOne env cm name).currentContext
      (reloadOne env cm name).clients).isSome = true := by
  unfold reloadOne
  split
  · exact h
  · split
    · exact h
    · exact lookup_isSome_insertPair _ _ _ _ h

theorem invariant_foldl_reloadOne (env : Env) (names : List String) :
    ∀ cm : ClientManager,
      (List.lookup cm.currentContext cm.clients).isSome = true →
      (List.lookup (names.foldl (reloadOne env) cm).currentContext
        (names.foldl (reloadOne env) cm).clients).isSome = true := by
  induction names with
  | nil => exact fun cm h => h
  | cons n rest ih =>
    intro cm h
    simp only [List.foldl_cons]
    exact ih _ (invariant_reloadOne env cm n h)

theorem invariant_applyOp (env : Env) (cm : ClientManager) (op : CMOp)
    (h : (List.lookup cm.currentContext cm.clients).isSome = true) :
    (List.lookup (applyOp env cm op).currentContext
      (applyOp env cm op).clients).isSome = true := by
  cases op with
  | setContext name =>
    simp only [applyOp, SetCurrentContext]
    split
    case isTrue hs => simpa using hs
    case isFalse _ => simpa using h
  | reloadFile path =>
    simp only [applyOp, reloadContextsForFile]
    split
    · exact h
    · exact invariant_foldl_reloadOne env _ _ h

/-- Counterexample to C5 as stated: construction succeeds with a default
context name that was never loaded, so immediately after construction the
active context is not a member of the loaded context set. -/
theorem c5_counterexample :
    ∃ cm, NewClientManager
        ⟨fun _ _ => some ⟨"host-a"⟩, fun _ => none, fun _ => none⟩
        ⟨"missing", [⟨"a", "", "", "", [], []⟩], ""⟩ = some cm
      ∧ List.lookup cm.currentContext cm.clients = none :=
  ⟨_, rfl, rfl⟩

/-- C5 amended: construction does not validate the configured default
context; but whenever a successfully constructed manager starts with its
active context in the loaded set (that is, the configured default names a
loaded context), every sequence of set-active-context and credential-reload
operations preserves membership of the active context in the loaded set. -/
theorem c5_amended_invariant (env : Env) (config : KubernetesConfig)
    (cm : ClientManager) (ops : List CMOp)
    (hnew : NewClientManager env config = some cm)
    (hinit : (List.lookup cm.currentContext cm.clients).isSome = true) :
    (List.lookup (applyOps env cm ops).currentContext
      (applyOps env cm ops).clients).isSome = true := by
  clear hnew
  unfold applyOps
  induction ops generalizing cm with
  | nil => exact hinit
  | cons op rest ih =>
    simp only [List.foldl_cons]
    exact ih _ (invariant_applyOp env cm op hinit)

/-- Witness for the amended C5: a loaded default context, then a failed
switch and a reload. -/
theorem c5_amended_witness :
    (List.lookup
      (applyOps ⟨fun _ _ => some ⟨"host-a"⟩, fun _ => none, fun _ => none⟩
        ⟨[("a", ⟨"a", "", "", "", [], []⟩)], [("a", ⟨"host-a"⟩)], "a", []⟩
        [CMOp.setContext "b", CMOp.reloadFile "p"]).currentContext
      (applyOps ⟨fun _ _ => some ⟨"host-a"⟩, fun _ => none, fun _ => none⟩
        ⟨[("a", ⟨"a", "", "", "", [], []⟩)], [("a", ⟨"host-a"⟩)], "a", []⟩
        [CMOp.setContext "b", CMOp.reloadFile "p"]).clients).isSome = true :=
  c5_amended_invariant
    ⟨fun _ _ => some ⟨"host-a"⟩, fun _ => none, fun _ => none⟩
    ⟨"a", [⟨"a", "", "", "", [], []⟩], ""⟩ _ _ rfl rfl

end Kubernetes

/-! ## C10 — filter-pipeline identity -/

namespace YQUtil

/-- C10: for every input document, `Evaluate` with an empty expression list
returns the input string verbatim. -/
theorem c10_identity (evalSingle : String → String → Except String String)
    (input : String) :
    Evaluate evalSingle input [] = .ok input := rfl

end YQUtil

/-! ## C3 — no evaluator configured means no dispatcher-level deny -/

namespace K8sTools

/-- C3: when the dispatcher's evaluator reference is `none` (no policies
configured, or evaluator construction failed at startup),
`checkAuthorization` returns success for every tool invocation — there is no
deny-by-default at the dispatcher layer. -/
theorem c3_no_evaluator_allows (payload : List (String × String))
    (tool k8sContext ns : String) (resource : Authorization.ResourceInfo) :
    checkAuthorization none payload tool k8sContext ns resource = none := rfl

end K8sTools

/-! ## C8 — namespace gating -/

namespace Kubernetes

/-- C8: a denied namespace is rejected regardless of the allow list; with an
empty allow list every non-denied namespace is allowed; with a non-empty
allow list a non-denied namespace is allowed iff it is listed. -/
theorem c8_namespace_gating (config : KubernetesContextConfig) (ns : String) :
    (ns ∈ config.deniedNamespaces → isNamespaceAllowedConfig config ns = false)
    ∧ (ns ∉ config.deniedNamespaces → config.allowedNamespaces = [] →
        isNamespaceAllowedConfig config ns = true)
    ∧ (ns ∉ config.deniedNamespaces → config.allowedNamespaces ≠ [] →
        (isNamespaceAllowedConfig config ns = true ↔
          ns ∈ config.allowedNamespaces)) := by
  refine ⟨?_, ?_, ?_⟩
  · intro h
    have hd : config.deniedNamespaces.any (fun denied => denied == ns) = true :=
      (list_any_beq_iff_mem _ _).mpr h
    simp [isNamespaceAllowedConfig, hd]
  · intro h1 h2
    have hd : config.deniedNamespaces.any (fun denied => denied == ns) = false :=
      Bool.eq_false_iff.mpr (fun hc => h1 ((list_any_beq_iff_mem _ _).mp hc))
    simp [isNamespaceAllowedConfig, hd, h2]
  · intro h1 h2
    have hd : config.deniedNamespaces.any (fun denied => denied == ns) = false :=
      Bool.eq_false_iff.mpr (fun hc => h1 ((list_any_beq_iff_mem _ _).mp hc))
    simp [isNamespaceAllowedConfig, hd, List.isEmpty_iff, h2,
      list_any_beq_iff_mem]

/-- Witness for C8 at concrete inputs. -/
theorem c8_witness :
    isNamespaceAllowedConfig
      ⟨"ctx", "", "", "", ["team-a"], ["kube-system"]⟩ "kube-system" = false
    ∧ isNamespaceAllowedConfig
      ⟨"ctx", "", "", "", [], ["kube-system"]⟩ "payments" = true
    ∧ (isNamespaceAllowedConfig
        ⟨"ctx", "", "", "", ["team-a"], ["kube-system"]⟩ "team-a" = true ↔
        "team-a" ∈ (["team-a"] : List String)) :=
  ⟨(c8_namespace_gating ⟨"ctx", "", "", "", ["team-a"], ["kube-system"]⟩
      "kube-system").1 (by decide),
   (c8_namespace_gating ⟨"ctx", "", "", "", [], ["kube-system"]⟩
      "payments").2.1 (by decide) rfl,
   (c8_namespace_gating ⟨"ctx", "", "", "", ["team-a"], ["kube-system"]⟩
      "team-a").2.2 (by decide) (by decide)⟩

end Kubernetes

/-! ## C9 — exec-command failure handling and timeout composition -/

namespace K8sTools

/-- C9: when the remote stream ends with an error (including a non-zero child
exit), the tool result is a success (error flag unset) whose payload
describes the failure together with the captured output; a non-empty stderr
appears demarcated after stdout; and the stream runs under the request
context composed with the fixed 30-second timeout, whose deadline never
exceeds `now + 30` nor the request's own deadline. -/
theorem c9_exec_command (reqCtx : GoContext) (now : Nat)
    (streamExec : GoContext → String × String × Option String)
    (stdout stderr errMsg : String)
    (h : streamExec (withTimeout reqCtx now 30) = (stdout, stderr, some errMsg)) :
    (handleExecStream reqCtx now streamExec).isError = false
    ∧ (handleExecStream reqCtx now streamExec).text =
        "Command exited with error: " ++ errMsg ++ "\n\nOutput:\n" ++
          execCombinedOutput stdout stderr
    ∧ (stderr ≠ "" →
        execCombinedOutput stdout stderr =
          stdout ++ "\n--- stderr ---\n" ++ stderr)
    ∧ (∀ dl, (withTimeout reqCtx now 30).deadline = some dl →
        dl ≤ now + 30 ∧ ∀ pd, reqCtx.deadline = some pd → dl ≤ pd) := by
  have hres : handleExecStream reqCtx now streamExec =
      successResult ("Command exited with error: " ++ errMsg ++ "\n\nOutput:\n" ++
        execCombinedOutput stdout stderr) := by
    simp [handleExecStream, h]
  refine ⟨by simp [hres, successResult], by simp [hres, successResult], ?_, ?_⟩
  · intro hne
    simp [execCombinedOutput, string_length_pos_of_ne stderr hne]
  · intro dl hdl
    cases hpd : reqCtx.deadline with
    | some pd =>
      simp [withTimeout, hpd] at hdl
      constructor
      · omega
      · intro pd' hpd'
        cases hpd'
        omega
    | none =>
      simp [withTimeout, hpd] at hdl
      constructor
      · omega
      · intro pd' hpd'
        cases hpd'

/-- Witness for C9 at a concrete stream and request context. -/
theorem c9_witness :
    (handleExecStream ⟨some 100⟩ 0
        (fun _ => ("out", "boom", some "command terminated with exit code 1"))).isError
      = false
    ∧ (handleExecStream ⟨some 100⟩ 0
        (fun _ => ("out", "boom", some "command terminated with exit code 1"))).text =
        "Command exited with error: command terminated with exit code 1" ++
          "\n\nOutput:\n" ++ execCombinedOutput "out" "boom" :=
  ⟨(c9_exec_command ⟨some 100⟩ 0
      (fun _ => ("out", "boom", some "command terminated with exit code 1"))
      "out" "boom" "command terminated with exit code 1" rfl).1,
   (c9_exec_command ⟨some 100⟩ 0
      (fun _ => ("out", "boom", some "command terminated with exit code 1"))
      "out" "boom" "command terminated with exit code 1" rfl).2.1⟩

end K8sTools
